import Mathlib

/-!
# Verification of the Chimera tunnel stack

Shallow embedding of the Chimera censorship-resistant proxy (Rust) into
Lean 4, together with theorems settling the specification claims.

Bytes are modelled as `Nat` (values < 256 where it matters), byte strings
as `List Nat`.  Machine-integer casts (`as u32`, `as u16`) are modelled by
explicit `% 2^32` / `% 2^16`.  Fallible Rust functions returning
`anyhow::Result` are modelled with `Except String` or `Option`.
-/

set_option maxRecDepth 10000

/-! ## Byte-order helpers (`bytes` crate `put_u32`/`get_u32`, `put_u16`/`get_u16`) -/

/-- Big-endian encoding of a `u32` value (`BufMut::put_u32`). -/
def be32 (n : Nat) : List Nat :=
  [n / 2 ^ 24 % 256, n / 2 ^ 16 % 256, n / 2 ^ 8 % 256, n % 256]

/-- Big-endian decoding of 4 bytes (`Buf::get_u32`); reads the first four
elements of the list. -/
def readU32 (b : List Nat) : Nat :=
  b.getD 0 0 * 2 ^ 24 + b.getD 1 0 * 2 ^ 16 + b.getD 2 0 * 2 ^ 8 + b.getD 3 0

/-- Big-endian encoding of a `u16` value (`BufMut::put_u16`). -/
def be16 (n : Nat) : List Nat :=
  [n / 2 ^ 8 % 256, n % 256]

/-- Big-endian decoding of 2 bytes (`Buf::get_u16`). -/
def readU16 (b : List Nat) : Nat :=
  b.getD 0 0 * 2 ^ 8 + b.getD 1 0

theorem be32_length (n : Nat) : (be32 n).length = 4 := rfl

theorem be16_length (n : Nat) : (be16 n).length = 2 := rfl

theorem readU32_be32 (n : Nat) (h : n < 2 ^ 32) : readU32 (be32 n) = n := by
  simp only [be32, readU32, List.getD_cons_zero, List.getD_cons_succ]
  omega

theorem readU32_append (b r : List Nat) (h : 4 ≤ b.length) :
    readU32 (b ++ r) = readU32 b := by
  match b with
  | b0 :: b1 :: b2 :: b3 :: rest => simp [readU32]
  | [] | [_] | [_, _] | [_, _, _] => simp at h

theorem readU16_be16 (n : Nat) (h : n < 2 ^ 16) : readU16 (be16 n) = n := by
  simp only [be16, readU16, List.getD_cons_zero, List.getD_cons_succ]
  omega

/-! ## Mux frame codec (`chimera_core/src/protocol.rs`) -/

/-- Packet types (`FrameType`). -/
inductive FrameType where
  | Connect
  | Data
  | Disconnect
  | Padding
deriving DecidableEq, Repr

/-- `FrameType as u8` (the `#[repr(u8)]` discriminants). -/
def FrameType.toByte : FrameType → Nat
  | .Connect => 0x01
  | .Data => 0x02
  | .Disconnect => 0x03
  | .Padding => 0x04

/-- `impl TryFrom<u8> for FrameType`. -/
def FrameType.tryFrom (value : Nat) : Except String FrameType :=
  match value with
  | 0x01 => .ok .Connect
  | 0x02 => .ok .Data
  | 0x03 => .ok .Disconnect
  | 0x04 => .ok .Padding
  | _ => .error "Invalid FrameType"

/-- The Chimera multiplexing frame.
Format: `[Type: 1] [StreamID: 4] [Length: 2] [Payload: Var]`. -/
structure Frame where
  frame_type : FrameType
  stream_id : Nat
  payload : List Nat
deriving DecidableEq, Repr

/-- `Frame::to_bytes`: type byte, stream id (u32 BE), payload length
(`len as u16`, hence `% 2^16`), then the payload. -/
def Frame.toBytes (f : Frame) : List Nat :=
  [f.frame_type.toByte] ++ be32 (f.stream_id % 2 ^ 32) ++
    be16 (f.payload.length % 2 ^ 16) ++ f.payload

/-- `Frame::check`: needs 7 header bytes; reads the u16 length at offset 5;
returns the total frame length `7 + len` when the buffer holds it,
`none` when the frame is still incomplete. -/
def Frame.check (src : List Nat) : Option Nat :=
  if src.length < 7 then none
  else
    let len := readU16 ((src.drop 5).take 2)
    let total_len := 7 + len
    if src.length < total_len then none
    else some total_len

/-- `Frame::parse`: consumes one frame from the head of `src`, mutating the
buffer; modelled by returning the result together with the remaining
bytes.  On an invalid type byte it fails, having consumed one byte. -/
def Frame.parse (src : List Nat) : Except String Frame × List Nat :=
  if src.length < 7 then (.error "Incomplete frame header", src)
  else
    match FrameType.tryFrom (src.getD 0 0) with
    | .error e => (.error e, src.drop 1)
    | .ok frame_type =>
      let stream_id := readU32 ((src.drop 1).take 4)
      let len := readU16 ((src.drop 5).take 2)
      let rest := src.drop 7
      if rest.length < len then (.error "Incomplete frame payload", rest)
      else (.ok ⟨frame_type, stream_id, rest.take len⟩, rest.drop len)

theorem FrameType.tryFrom_toByte (t : FrameType) :
    FrameType.tryFrom t.toByte = .ok t := by
  cases t <;> rfl

theorem Frame.toBytes_length (f : Frame) :
    f.toBytes.length = 7 + f.payload.length := by
  simp [Frame.toBytes, be32, be16]
  omega

/-- `check` succeeding pins down the length field and the bounds. -/
theorem Frame.check_some (src : List Nat) (L : Nat)
    (h : Frame.check src = some L) :
    7 ≤ src.length ∧ L = 7 + readU16 ((src.drop 5).take 2) ∧ L ≤ src.length := by
  unfold Frame.check at h
  by_cases h7 : src.length < 7
  · simp [h7] at h
  · simp only [h7, if_false] at h
    by_cases hl : src.length < 7 + readU16 ((src.drop 5).take 2)
    · simp [hl] at h
    · simp only [hl, if_false, Option.some.injEq] at h
      omega

/-- Splitting `Frame.toBytes` at byte 1 / byte 5 / byte 7 for parsing. -/
theorem Frame.toBytes_decomp (t : FrameType) (sid : Nat) (p : List Nat)
    (hid : sid < 2 ^ 32) (hlen : p.length < 2 ^ 16) :
    (Frame.mk t sid p).toBytes
      = [t.toByte] ++ (be32 sid ++ (be16 p.length ++ p)) := by
  have h1 : sid % 2 ^ 32 = sid := Nat.mod_eq_of_lt hid
  have h2 : p.length % 2 ^ 16 = p.length := Nat.mod_eq_of_lt hlen
  simp only [Frame.toBytes, h1, h2, List.append_assoc]

/-- C2: parsing the serialization of a frame returns the frame and consumes
the whole buffer: for every frame type, every `stream_id < 2^32` and every
payload of length ≤ 65535 (including the empty and the 65535-byte payload),
`Frame.parse (Frame.toBytes f) = (ok f, [])`. -/
theorem frame_parse_toBytes_roundtrip (f : Frame) (hid : f.stream_id < 2 ^ 32)
    (hlen : f.payload.length ≤ 65535) :
    Frame.parse f.toBytes = (.ok f, []) := by
  obtain ⟨t, sid, p⟩ := f
  replace hid : sid < 2 ^ 32 := hid
  replace hlen : p.length ≤ 65535 := hlen
  have hlen16 : p.length < 2 ^ 16 := by omega
  have hb := Frame.toBytes_decomp t sid p hid hlen16
  have hlen7 : ([t.toByte] ++ (be32 sid ++ (be16 p.length ++ p))).length
      = 7 + p.length := by
    simp only [List.length_append, List.length_cons, List.length_nil,
      be32_length, be16_length]
    omega
  rw [hb]
  unfold Frame.parse
  rw [if_neg (by omega)]
  have hgd : ([t.toByte] ++ (be32 sid ++ (be16 p.length ++ p))).getD 0 0
      = t.toByte := rfl
  rw [hgd, FrameType.tryFrom_toByte]
  have hd1 : ([t.toByte] ++ (be32 sid ++ (be16 p.length ++ p))).drop 1
      = be32 sid ++ (be16 p.length ++ p) := List.drop_left' rfl
  have hd5 : ([t.toByte] ++ (be32 sid ++ (be16 p.length ++ p))).drop 5
      = be16 p.length ++ p := by
    rw [show [t.toByte] ++ (be32 sid ++ (be16 p.length ++ p))
        = ([t.toByte] ++ be32 sid) ++ (be16 p.length ++ p) by simp]
    exact List.drop_left' rfl
  have hd7 : ([t.toByte] ++ (be32 sid ++ (be16 p.length ++ p))).drop 7 = p := by
    rw [show [t.toByte] ++ (be32 sid ++ (be16 p.length ++ p))
        = ([t.toByte] ++ be32 sid ++ be16 p.length) ++ p by simp]
    exact List.drop_left' rfl
  rw [hd1, hd5, hd7]
  rw [List.take_left' (be32_length sid), List.take_left' (be16_length p.length)]
  rw [readU32_be32 sid hid, readU16_be16 p.length hlen16]
  dsimp only
  rw [if_neg (by omega), List.take_length, List.drop_length]

/-- Witness for `frame_parse_toBytes_roundtrip` at a concrete frame,
covering the zero-length-payload boundary. -/
theorem frame_parse_toBytes_roundtrip_witness :
    (7 : Nat) < 2 ^ 32 ∧
      Frame.parse (Frame.mk .Data 7 []).toBytes = (.ok (Frame.mk .Data 7 []), []) :=
  ⟨by decide, frame_parse_toBytes_roundtrip ⟨.Data, 7, []⟩ (by decide) (by decide)⟩

/-- Boolean success test for `Except` values. -/
def exceptIsOk {ε α : Type} : Except ε α → Bool
  | .ok _ => true
  | .error _ => false

theorem exceptIsOk_true {ε α : Type} {x : Except ε α} (h : exceptIsOk x = true) :
    ∃ a, x = .ok a := by
  cases x with
  | ok a => exact ⟨a, rfl⟩
  | error e => simp [exceptIsOk] at h

theorem exceptIsOk_false {ε α : Type} {x : Except ε α} (h : exceptIsOk x = false) :
    ∃ e, x = .error e := by
  cases x with
  | ok a => simp [exceptIsOk] at h
  | error e => exact ⟨e, rfl⟩

/-- First byte of a ≥ 1-element `take`. -/
theorem getD_take_zero (buf : List Nat) (L : Nat) (hL : 0 < L) :
    (buf.take L).getD 0 0 = buf.getD 0 0 := by
  cases buf with
  | nil => simp
  | cons b bs =>
    cases L with
    | zero => omega
    | succ k => simp [List.take_succ_cons]

/-- C9 (amended): when `check` returns `Some L` on a buffer `B` and the type
byte of `B` is a valid frame type, `parse` on `B` consumes exactly
`L = 7 + len` bytes, leaving any following bytes untouched. -/
theorem frame_check_parse_consumes (B : List Nat) (L : Nat)
    (hc : Frame.check B = some L)
    (ht : exceptIsOk (FrameType.tryFrom (B.getD 0 0)) = true) :
    (Frame.parse B).2 = B.drop L ∧ L = 7 + readU16 ((B.drop 5).take 2) := by
  obtain ⟨h7, hL, hle⟩ := Frame.check_some B L hc
  obtain ⟨t, ht⟩ := exceptIsOk_true ht
  refine ⟨?_, hL⟩
  unfold Frame.parse
  rw [if_neg (by omega), ht]
  dsimp only
  rw [if_neg (by simp only [List.length_drop]; omega)]
  rw [List.drop_drop]
  dsimp only
  rw [hL]

/-- Counterexample to C9 as stated: on the 7-byte buffer
`[5,0,0,0,0,0,0]` (invalid type byte `0x05`, length field 0) `check`
returns `some 7`, but `parse` fails after consuming only the type byte,
so it does not consume `L = 7` bytes. -/
theorem frame_check_parse_consumes_cex :
    Frame.check [5, 0, 0, 0, 0, 0, 0] = some 7 ∧
      (Frame.parse [5, 0, 0, 0, 0, 0, 0]).2 ≠ List.drop 7 [5, 0, 0, 0, 0, 0, 0] := by
  decide

/-- Witness for `frame_check_parse_consumes`: a valid `Data` frame with one
payload byte followed by a stray byte. -/
theorem frame_check_parse_consumes_witness :
    Frame.check [2, 0, 0, 0, 1, 0, 1, 99, 7] = some 8 ∧
      (Frame.parse [2, 0, 0, 0, 1, 0, 1, 99, 7]).2
        = List.drop 8 [2, 0, 0, 0, 1, 0, 1, 99, 7] :=
  ⟨by decide,
    (frame_check_parse_consumes [2, 0, 0, 0, 1, 0, 1, 99, 7] 8
      (by decide) (by decide)).1⟩

/-! ## Frame-drain loops

`handle_connection` in `chimera_core/src/lib.rs` (server side) and the
supervisor data loop in `chimera_core/src/bin/client.rs` both accumulate
session plaintext in a buffer and drain it with `check`/`parse`.  The
server propagates a `parse` error with `?`; the client wraps `parse` in
`if let Ok(frame)` and silently drops a frame that fails to parse.  The
frames handed to `handle_frame` are collected in a list; the handler
itself is modelled separately. -/

/-- Server-side drain loop (`handle_connection`): returns the parsed frames
and the leftover buffer, or `none` when a frame fails to parse (the `?`
operator aborts the connection task). -/
def serverDrainFrames (buf : List Nat) : Option (List Frame × List Nat) :=
  match hc : Frame.check buf with
  | none => some ([], buf)
  | some len =>
    match (Frame.parse (buf.take len)).1 with
    | .error _ => none
    | .ok frame =>
      match serverDrainFrames (buf.drop len) with
      | none => none
      | some (fs, rest) => some (frame :: fs, rest)
termination_by buf.length
decreasing_by
  have h := Frame.check_some buf len hc
  simp only [List.length_drop]
  omega

/-- Client-side drain loop (supervisor data loop in `bin/client.rs`):
returns the parsed frames and the leftover buffer; a frame that fails to
parse is dropped (its `check`ed length is still consumed) and the loop
continues. -/
def clientDrainFrames (buf : List Nat) : List Frame × List Nat :=
  match hc : Frame.check buf with
  | none => ([], buf)
  | some len =>
    let rest := clientDrainFrames (buf.drop len)
    match (Frame.parse (buf.take len)).1 with
    | .error _ => rest
    | .ok frame => (frame :: rest.1, rest.2)
termination_by buf.length
decreasing_by
  have h := Frame.check_some buf len hc
  simp only [List.length_drop]
  omega

/-- A complete frame with an invalid type byte makes `parse` fail on the
split-off frame bytes. -/
theorem parse_take_invalid_type (buf : List Nat) (L : Nat)
    (hc : Frame.check buf = some L)
    (hbad : exceptIsOk (FrameType.tryFrom (buf.getD 0 0)) = false) :
    ∃ e, (Frame.parse (buf.take L)).1 = .error e := by
  obtain ⟨h7, hL, hle⟩ := Frame.check_some buf L hc
  obtain ⟨e, he⟩ := exceptIsOk_false hbad
  have htk : (buf.take L).length = L := by
    simp only [List.length_take]
    omega
  have hgd : (buf.take L).getD 0 0 = buf.getD 0 0 :=
    getD_take_zero buf L (by omega)
  refine ⟨e, ?_⟩
  unfold Frame.parse
  rw [if_neg (by omega), hgd, he]

/-! One-step unfolding lemmas for the drain loops (the definitions use
well-founded recursion, so they do not reduce definitionally). -/

theorem serverDrainFrames_check_none (buf : List Nat)
    (h : Frame.check buf = none) : serverDrainFrames buf = some ([], buf) := by
  unfold serverDrainFrames
  split
  · rfl
  · next len hc => rw [h] at hc; exact Option.noConfusion hc

theorem serverDrainFrames_step_err (buf : List Nat) (L : Nat)
    (hc : Frame.check buf = some L)
    (hp : exceptIsOk (Frame.parse (buf.take L)).1 = false) :
    serverDrainFrames buf = none := by
  obtain ⟨e, he⟩ := exceptIsOk_false hp
  unfold serverDrainFrames
  split
  · next h => rw [hc] at h; exact Option.noConfusion h
  · next len h =>
    rw [hc] at h
    injection h with h
    subst h
    rw [he]

theorem serverDrainFrames_step_ok (buf : List Nat) (L : Nat) (f : Frame)
    (hc : Frame.check buf = some L)
    (hp : (Frame.parse (buf.take L)).1 = .ok f) :
    serverDrainFrames buf
      = (serverDrainFrames (buf.drop L)).map (fun p => (f :: p.1, p.2)) := by
  conv_lhs => rw [serverDrainFrames.eq_def]
  split
  · next h => rw [hc] at h; exact Option.noConfusion h
  · next len h =>
    rw [hc] at h
    injection h with h
    subst h
    rw [hp]
    cases serverDrainFrames (buf.drop L) with
    | none => rfl
    | some p => rfl

theorem clientDrainFrames_check_none (buf : List Nat)
    (h : Frame.check buf = none) : clientDrainFrames buf = ([], buf) := by
  unfold clientDrainFrames
  split
  · rfl
  · next len hc => rw [h] at hc; exact Option.noConfusion hc

theorem clientDrainFrames_step_err (buf : List Nat) (L : Nat)
    (hc : Frame.check buf = some L)
    (hp : exceptIsOk (Frame.parse (buf.take L)).1 = false) :
    clientDrainFrames buf = clientDrainFrames (buf.drop L) := by
  obtain ⟨e, he⟩ := exceptIsOk_false hp
  conv_lhs => rw [clientDrainFrames.eq_def]
  split
  · next h => rw [hc] at h; exact Option.noConfusion h
  · next len h =>
    rw [hc] at h
    injection h with h
    subst h
    rw [he]

theorem clientDrainFrames_step_ok (buf : List Nat) (L : Nat) (f : Frame)
    (hc : Frame.check buf = some L)
    (hp : (Frame.parse (buf.take L)).1 = .ok f) :
    clientDrainFrames buf
      = (f :: (clientDrainFrames (buf.drop L)).1, (clientDrainFrames (buf.drop L)).2) := by
  conv_lhs => rw [clientDrainFrames.eq_def]
  split
  · next h => rw [hc] at h; exact Option.noConfusion h
  · next len h =>
    rw [hc] at h
    injection h with h
    subst h
    rw [hp]

/-- C3 (amended): a mux frame with a type byte outside `{1,2,3,4}` is fatal
to the session on the server's connection handler (the parse error
propagates), but the client supervisor's drain loop silently drops the
malformed frame, consuming its `check`ed length, and continues with the
remaining bytes. -/
theorem malformed_frame_disposition (buf : List Nat) (L : Nat)
    (hc : Frame.check buf = some L)
    (hbad : exceptIsOk (FrameType.tryFrom (buf.getD 0 0)) = false) :
    serverDrainFrames buf = none ∧
      clientDrainFrames buf = clientDrainFrames (buf.drop L) := by
  obtain ⟨e, he⟩ := parse_take_invalid_type buf L hc hbad
  have hp : exceptIsOk (Frame.parse (buf.take L)).1 = false := by
    rw [he]; rfl
  exact ⟨serverDrainFrames_step_err buf L hc hp,
    clientDrainFrames_step_err buf L hc hp⟩

/-- Counterexample to C3 as stated: on the 7-byte frame `[5,0,0,0,1,0,0]`
(type byte `0x05`) followed by a valid `Data` frame for stream 1, the
server drain loop errors out (fatal), but the client drain loop keeps
the session alive and still delivers the subsequent frame — the
malformed frame is not fatal on the client. -/
theorem malformed_frame_disposition_cex :
    serverDrainFrames [5, 0, 0, 0, 1, 0, 0, 2, 0, 0, 0, 1, 0, 0] = none ∧
      clientDrainFrames [5, 0, 0, 0, 1, 0, 0, 2, 0, 0, 0, 1, 0, 0]
        = ([Frame.mk .Data 1 []], []) := by
  have h1 : serverDrainFrames [5, 0, 0, 0, 1, 0, 0, 2, 0, 0, 0, 1, 0, 0] = none :=
    serverDrainFrames_step_err _ 7 (by decide) (by decide)
  have h2 : clientDrainFrames [5, 0, 0, 0, 1, 0, 0, 2, 0, 0, 0, 1, 0, 0]
      = clientDrainFrames [2, 0, 0, 0, 1, 0, 0] := by
    have := clientDrainFrames_step_err [5, 0, 0, 0, 1, 0, 0, 2, 0, 0, 0, 1, 0, 0]
      7 (by decide) (by decide)
    simpa using this
  have h3 : clientDrainFrames [2, 0, 0, 0, 1, 0, 0]
      = (Frame.mk .Data 1 [] :: (clientDrainFrames []).1, (clientDrainFrames []).2) := by
    have := clientDrainFrames_step_ok [2, 0, 0, 0, 1, 0, 0] 7 (Frame.mk .Data 1 [])
      (by decide) (by rfl)
    simpa using this
  have h4 : clientDrainFrames [] = ([], []) :=
    clientDrainFrames_check_none [] (by decide)
  exact ⟨h1, by rw [h2, h3, h4]⟩

/-- Witness for `malformed_frame_disposition` on a concrete malformed
frame carrying one payload byte, followed by the header of a further
frame. -/
theorem malformed_frame_disposition_witness :
    Frame.check [9, 0, 0, 0, 2, 0, 1, 55, 3, 0, 0, 0, 2, 0, 0] = some 8 ∧
      serverDrainFrames [9, 0, 0, 0, 2, 0, 1, 55, 3, 0, 0, 0, 2, 0, 0] = none ∧
      clientDrainFrames [9, 0, 0, 0, 2, 0, 1, 55, 3, 0, 0, 0, 2, 0, 0]
        = clientDrainFrames
            (List.drop 8 [9, 0, 0, 0, 2, 0, 1, 55, 3, 0, 0, 0, 2, 0, 0]) := by
  refine ⟨by decide, ?_⟩
  exact malformed_frame_disposition _ 8 (by decide) (by decide)

/-! ## Encrypted session layer (`chimera_core/src/handshake.rs`)

`EncryptedConnection::send`/`recv` are embedded over an abstract AEAD
cipher.  The concrete ChaCha20-Poly1305 cipher lives in the external
`ring` crate (out of scope per the spec); it is modelled by a structure
carrying the two laws the session layer relies on: decryption with the
same sequence number inverts encryption, and the ciphertext is exactly
16 bytes (the tag) longer than the plaintext. -/

/-- Abstract model of `chimera_crypto::Cipher` keyed with a fixed key:
`enc s x` is the ciphertext-with-tag for sequence number `s`,
`dec s y` the verified plaintext (or `none` on AEAD failure). -/
structure CipherModel where
  enc : Nat → List Nat → List Nat
  dec : Nat → List Nat → Option (List Nat)
  dec_enc : ∀ s x, dec s (enc s x) = some x
  length_enc : ∀ s x, (enc s x).length = x.length + 16

/-- One wire record emitted by `EncryptedConnection::send`:
`u32 length prefix (big-endian, len as u32 hence mod 2^32) || ciphertext||tag`. -/
def sealedRecord (C : CipherModel) (seq : Nat) (data : List Nat) : List Nat :=
  be32 ((C.enc seq data).length % 2 ^ 32) ++ C.enc seq data

/-- Iterated `send`: the concatenated wire bytes of sending each element of
`xs` in order, together with the final send-sequence.  Each `send`
encrypts with the current `seq_out` and increments it. -/
def sendAll (C : CipherModel) (seq : Nat) : List (List Nat) → List Nat × Nat
  | [] => ([], seq)
  | x :: xs =>
    let rest := sendAll C (seq + 1) xs
    (sealedRecord C seq x ++ rest.1, rest.2)

/-- Result of one `EncryptedConnection::recv` call. -/
inductive RecvResult where
  | record (plaintext : List Nat) (buf : List Nat) (seq : Nat)
      (chunks : List (List Nat))
  | eof
  | fail
deriving DecidableEq

/-- `EncryptedConnection::recv`: the accumulation buffer is `buf`, the
recv-sequence is `seq`, and `chunks` are the successive results of
`inner.recv()` still to arrive (the list running out models clean EOF).
Mirrors the loop: with ≥ 4 buffered bytes read the u32 length `len`; when
`4 + len` bytes are buffered, consume them, decrypt with `seq` and
return, advancing the sequence; otherwise pull the next transport chunk;
at EOF, `eof` on an empty buffer and `fail` on a partial record. -/
def recvOne (C : CipherModel) (buf : List Nat) (seq : Nat)
    (chunks : List (List Nat)) : RecvResult :=
    if 4 ≤ buf.length then
      let len := readU32 (buf.take 4)
      if 4 + len ≤ buf.length then
        let encrypted_chunk := (buf.drop 4).take len
        match C.dec seq encrypted_chunk with
        | some pt => .record pt ((buf.drop 4).drop len) (seq + 1) chunks
        | none => .fail
      else
        match chunks with
        | [] => if buf.isEmpty then .eof else .fail
        | c :: cs => recvOne C (buf ++ c) seq cs
    else
      match chunks with
      | [] => if buf.isEmpty then .eof else .fail
      | c :: cs => recvOne C (buf ++ c) seq cs
termination_by chunks.length

/-- `n` successive `recv` calls; `some` of the plaintexts when every call
returns a record. -/
def recvMany (C : CipherModel) : List Nat → Nat → List (List Nat) → Nat →
    Option (List (List Nat))
  | _, _, _, 0 => some []
  | buf, seq, chunks, n + 1 =>
    match recvOne C buf seq chunks with
    | .record pt buf2 seq2 chunks2 => (recvMany C buf2 seq2 chunks2 n).map (pt :: ·)
    | _ => none

theorem sealedRecord_length (C : CipherModel) (seq : Nat) (x : List Nat)
    (h32 : (C.enc seq x).length < 2 ^ 32) :
    (sealedRecord C seq x).length = 4 + (C.enc seq x).length := by
  simp [sealedRecord, be32_length]

theorem sealedRecord_eq (C : CipherModel) (seq : Nat) (x : List Nat)
    (h32 : (C.enc seq x).length < 2 ^ 32) :
    sealedRecord C seq x = be32 (C.enc seq x).length ++ C.enc seq x := by
  rw [sealedRecord, Nat.mod_eq_of_lt h32]

/-- `recv` on a buffer that starts with a complete record returns that
record's plaintext, keeps the rest buffered and advances the sequence. -/
theorem recvOne_full (C : CipherModel) (x rest : List Nat) (seq : Nat)
    (chunks : List (List Nat)) (h32 : (C.enc seq x).length < 2 ^ 32) :
    recvOne C (sealedRecord C seq x ++ rest) seq chunks
      = .record x rest (seq + 1) chunks := by
  have hrec := sealedRecord_eq C seq x h32
  have hlen := sealedRecord_length C seq x h32
  set ct := C.enc seq x with hct
  have hbuf : sealedRecord C seq x ++ rest = be32 ct.length ++ (ct ++ rest) := by
    rw [hrec, List.append_assoc]
  rw [recvOne.eq_def]
  rw [hbuf]
  have h4 : 4 ≤ (be32 ct.length ++ (ct ++ rest)).length := by
    simp [be32_length]
  rw [if_pos h4]
  rw [List.take_left' (be32_length ct.length), readU32_be32 ct.length h32]
  have hfull : 4 + ct.length ≤ (be32 ct.length ++ (ct ++ rest)).length := by
    simp [be32_length]
  rw [if_pos hfull]
  rw [List.drop_left' (be32_length ct.length)]
  rw [List.take_left' rfl, List.drop_left' rfl]
  show (match C.dec seq ct with
    | some pt => RecvResult.record pt rest (seq + 1) chunks
    | none => RecvResult.fail) = RecvResult.record x rest (seq + 1) chunks
  rw [hct, C.dec_enc]

/-- First 4 bytes of a buffer that, together with the pending chunks, forms
`sealedRecord ++ rest`: they are the record's big-endian length prefix. -/
theorem take4_of_stream (C : CipherModel) (x rest buf : List Nat) (seq : Nat)
    (fl : List Nat) (heq : buf ++ fl = sealedRecord C seq x ++ rest)
    (h32 : (C.enc seq x).length < 2 ^ 32) (h4 : 4 ≤ buf.length) :
    buf.take 4 = be32 (C.enc seq x).length := by
  have h1 : (buf ++ fl).take 4 = buf.take 4 :=
    List.take_append_of_le_length h4
  rw [heq] at h1
  rw [sealedRecord_eq C seq x h32, List.append_assoc] at h1
  rw [List.take_left' (be32_length _)] at h1
  exact h1.symm

/-- Main lemma for `recv`: if the byte stream still to be delivered (current
buffer plus pending transport chunks) starts with one complete sealed
record, `recv` returns exactly that record's plaintext, advances the
sequence by one, and leaves the remaining stream intact — for every way
the stream is split into chunks. -/
theorem recvOne_correct (C : CipherModel) (x : List Nat) :
    ∀ (chunks : List (List Nat)) (buf rest : List Nat) (seq : Nat),
      buf ++ chunks.flatten = sealedRecord C seq x ++ rest →
      (C.enc seq x).length < 2 ^ 32 →
      ∃ buf2 chunks2,
        recvOne C buf seq chunks = .record x buf2 (seq + 1) chunks2 ∧
          buf2 ++ chunks2.flatten = rest := by
  intro chunks
  induction chunks with
  | nil =>
    intro buf rest seq heq h32
    simp only [List.flatten_nil, List.append_nil] at heq
    refine ⟨rest, [], ?_, by simp⟩
    rw [heq]
    exact recvOne_full C x rest seq [] h32
  | cons c cs ih =>
    intro buf rest seq heq h32
    have hreclen : (sealedRecord C seq x).length = 4 + (C.enc seq x).length :=
      sealedRecord_length C seq x h32
    by_cases hfull : 4 + (C.enc seq x).length ≤ buf.length
    · have h4 : 4 ≤ buf.length := by omega
      have htake : buf.take (4 + (C.enc seq x).length) = sealedRecord C seq x := by
        have h1 : (buf ++ (c :: cs).flatten).take (4 + (C.enc seq x).length)
            = buf.take (4 + (C.enc seq x).length) :=
          List.take_append_of_le_length hfull
        rw [heq, List.take_left' hreclen] at h1
        exact h1.symm
      have hbufsplit : buf
          = sealedRecord C seq x ++ buf.drop (4 + (C.enc seq x).length) := by
        conv_lhs => rw [← List.take_append_drop (4 + (C.enc seq x).length) buf]
        rw [htake]
      have htail : buf.drop (4 + (C.enc seq x).length) ++ (c :: cs).flatten
          = rest := by
        have h2 := heq
        rw [hbufsplit, List.append_assoc] at h2
        exact List.append_cancel_left h2
      refine ⟨buf.drop (4 + (C.enc seq x).length), c :: cs, ?_, htail⟩
      conv_lhs => rw [hbufsplit]
      exact recvOne_full C x _ seq (c :: cs) h32
    · have hstream : (buf ++ c) ++ cs.flatten = sealedRecord C seq x ++ rest := by
        rw [List.append_assoc]
        simpa using heq
      have hstep : recvOne C buf seq (c :: cs) = recvOne C (buf ++ c) seq cs := by
        rw [recvOne.eq_def]
        by_cases h4 : 4 ≤ buf.length
        · rw [if_pos h4]
          have hr : buf.take 4 = be32 (C.enc seq x).length :=
            take4_of_stream C x rest buf seq (c :: cs).flatten heq h32 h4
          dsimp only
          rw [hr, readU32_be32 _ h32, if_neg (by omega)]
        · rw [if_neg h4]
      rw [hstep]
      exact ih (buf ++ c) rest seq hstream h32

theorem sendAll_snd (C : CipherModel) :
    ∀ (xs : List (List Nat)) (seq : Nat), (sendAll C seq xs).2 = seq + xs.length := by
  intro xs
  induction xs with
  | nil => intro seq; simp [sendAll]
  | cons x xs ih =>
    intro seq
    show (sendAll C (seq + 1) xs).2 = seq + (x :: xs).length
    rw [ih (seq + 1)]
    simp
    omega

/-- `n` records sent with consecutive sequence numbers starting at `seq` are
all received back in order, for every chunking of the wire bytes. -/
theorem recvMany_sendAll (C : CipherModel) :
    ∀ (xs : List (List Nat)) (buf : List Nat) (chunks : List (List Nat)) (seq : Nat),
      (∀ x ∈ xs, x.length + 16 < 2 ^ 32) →
      buf ++ chunks.flatten = (sendAll C seq xs).1 →
      recvMany C buf seq chunks xs.length = some xs := by
  intro xs
  induction xs with
  | nil => intro buf chunks seq hb heq; rfl
  | cons x xs ih =>
    intro buf chunks seq hb heq
    have h32 : (C.enc seq x).length < 2 ^ 32 := by
      rw [C.length_enc]
      exact hb x (by simp)
    have heq2 : buf ++ chunks.flatten
        = sealedRecord C seq x ++ (sendAll C (seq + 1) xs).1 := heq
    obtain ⟨buf2, chunks2, h1, h2⟩ :=
      recvOne_correct C x chunks buf (sendAll C (seq + 1) xs).1 seq heq2 h32
    have h3 := ih buf2 chunks2 (seq + 1) (fun y hy => hb y (by simp [hy])) h2
    simp only [List.length_cons]
    rw [recvMany, h1]
    dsimp only
    rw [h3]
    rfl

/-- Unfolding lemma for `recvMany` at a successor count. -/
theorem recvMany_succ (C : CipherModel) (buf : List Nat) (seq : Nat)
    (chunks : List (List Nat)) (n : Nat) :
    recvMany C buf seq chunks (n + 1)
      = match recvOne C buf seq chunks with
        | .record pt buf2 seq2 chunks2 =>
          (recvMany C buf2 seq2 chunks2 n).map (pt :: ·)
        | .eof => none
        | .fail => none := by
  rw [recvMany]
  cases recvOne C buf seq chunks <;> rfl
/-- A concrete instance of the cipher laws, used to instantiate witnesses
and counterexamples: ciphertext is the plaintext followed by a 16-byte
zero tag. -/
def idCipher : CipherModel where
  enc := fun _ x => x ++ List.replicate 16 0
  dec := fun _ y => if 16 ≤ y.length then some (y.take (y.length - 16)) else none
  dec_enc := by
    intro s x
    show (if 16 ≤ (x ++ List.replicate 16 0).length
        then some ((x ++ List.replicate 16 0).take
          ((x ++ List.replicate 16 0).length - 16))
        else none) = some x
    have hlen : (x ++ List.replicate (16 : Nat) 0).length = x.length + 16 := by simp
    rw [hlen, if_pos (by omega), Nat.add_sub_cancel, List.take_left]
  length_enc := by intro s x; simp
/-- C1 (amended): on an established session with any cipher satisfying the
AEAD laws, sending plaintexts `x_0, …, x_n` — each shorter than
`2^32 − 16` bytes, so that the `len as u32` length prefix is exact —
produces one sealed record per send with send-sequences `0, 1, …, n`
(the final send-sequence is `n + 1`), and for every splitting of the
concatenated wire bytes into transport chunks, `n + 1` `recv` calls
starting from recv-sequence 0 return exactly `x_0, …, x_n` in order. -/
theorem session_stream_roundtrip (C : CipherModel) (xs chunks : List (List Nat))
    (hlen : ∀ x ∈ xs, x.length + 16 < 2 ^ 32)
    (hw : chunks.flatten = (sendAll C 0 xs).1) :
    recvMany C [] 0 chunks xs.length = some xs ∧
      (sendAll C 0 xs).2 = xs.length := by
  constructor
  · exact recvMany_sendAll C xs [] chunks 0 hlen (by simpa using hw)
  · simpa using sendAll_snd C xs 0
/-- Witness for `session_stream_roundtrip`: two plaintexts delivered as one
transport chunk. -/
theorem session_stream_roundtrip_witness :
    recvMany idCipher [] 0 [(sendAll idCipher 0 [[1, 2], [3]]).1] 2
      = some [[1, 2], [3]] :=
  (session_stream_roundtrip idCipher [[1, 2], [3]]
    [(sendAll idCipher 0 [[1, 2], [3]]).1] (by decide) (by simp)).1
/-- Counterexample to C1 as stated: a single plaintext of `2^32 − 16` bytes.
Its ciphertext-with-tag is `2^32` bytes long, `len as u32` wraps to 0, the
receiver reads a zero-length record, AEAD-fails on the empty ciphertext,
and `recv` fails instead of returning the plaintext. -/
theorem session_stream_roundtrip_cex :
    recvMany idCipher [] 0
      [(sendAll idCipher 0 [List.replicate (2 ^ 32 - 16) 0]).1] 1 = none := by
  have henc : idCipher.enc 0 (List.replicate (2 ^ 32 - 16) 0)
      = List.replicate (2 ^ 32) (0 : Nat) := by
    show List.replicate (2 ^ 32 - 16) (0 : Nat) ++ List.replicate 16 0 = _
    rw [← List.replicate_add]
    norm_num
  have hw : (sendAll idCipher 0 [List.replicate (2 ^ 32 - 16) 0]).1
      = be32 0 ++ List.replicate (2 ^ 32) 0 := by
    show sealedRecord idCipher 0 (List.replicate (2 ^ 32 - 16) 0) ++
        (sendAll idCipher 1 []).1 = _
    rw [sealedRecord, henc]
    rw [List.length_replicate, Nat.mod_self]
    show (be32 0 ++ List.replicate (2 ^ 32) 0) ++ [] = _
    rw [List.append_nil]
  have hlenw : ((sendAll idCipher 0 [List.replicate (2 ^ 32 - 16) 0]).1).length
      = 4 + 2 ^ 32 := by
    rw [hw, List.length_append, be32_length, List.length_replicate]
  have hstep1 : recvOne idCipher [] 0
        [(sendAll idCipher 0 [List.replicate (2 ^ 32 - 16) 0]).1]
      = recvOne idCipher ((sendAll idCipher 0 [List.replicate (2 ^ 32 - 16) 0]).1)
          0 [] := by
    rw [recvOne.eq_def, if_neg (by simp)]
    show recvOne idCipher
        ([] ++ (sendAll idCipher 0 [List.replicate (2 ^ 32 - 16) 0]).1) 0 [] = _
    rw [List.nil_append]
  have hstep2 : recvOne idCipher
        ((sendAll idCipher 0 [List.replicate (2 ^ 32 - 16) 0]).1) 0 []
      = .fail := by
    rw [recvOne.eq_def, if_pos (by rw [hlenw]; omega)]
    dsimp only
    rw [hw, List.take_left' (be32_length 0)]
    rw [show readU32 (be32 0) = 0 from rfl]
    rw [if_pos (by
      rw [List.length_append, be32_length, List.length_replicate]
      omega)]
    rw [List.take_zero]
    rfl
  rw [show (1 : Nat) = 0 + 1 from rfl, recvMany_succ, hstep1, hstep2]
/-- C4 (amended): `recv` enforces no maximum record size: an inbound record
whose u32 length prefix exceeds 1 MiB (`2^20`) is not rejected — once its
bytes have been buffered it is decrypted and returned like any other
record, and the session continues. -/
theorem recv_no_max_record_size (C : CipherModel) (x : List Nat) (seq : Nat)
    (hbig : 2 ^ 20 < (C.enc seq x).length)
    (h32 : (C.enc seq x).length < 2 ^ 32) :
    recvOne C (sealedRecord C seq x) seq [] = .record x [] (seq + 1) [] ∧
      2 ^ 20 < readU32 ((sealedRecord C seq x).take 4) := by
  constructor
  · have h := recvOne_full C x [] seq [] h32
    rw [List.append_nil] at h
    exact h
  · rw [sealedRecord_eq C seq x h32, List.take_left' (be32_length _),
      readU32_be32 _ h32]
    exact hbig
/-- Witness for `recv_no_max_record_size`: a 4 MiB record. -/
theorem recv_no_max_record_size_witness :
    recvOne idCipher (sealedRecord idCipher 0 (List.replicate (2 ^ 22) 0)) 0 []
        = .record (List.replicate (2 ^ 22) 0) [] 1 [] ∧
      2 ^ 20 < readU32
        ((sealedRecord idCipher 0 (List.replicate (2 ^ 22) 0)).take 4) :=
  recv_no_max_record_size idCipher (List.replicate (2 ^ 22) 0) 0
    (by rw [idCipher.length_enc, List.length_replicate]; omega)
    (by rw [idCipher.length_enc, List.length_replicate]; omega)
/-- Counterexample to C4 as stated: a record whose length prefix is
`2^21 + 16` bytes (2 MiB + tag, above the claimed 1 MiB maximum) is
accepted by `recv` — the session returns its plaintext instead of
terminating with an error. -/
theorem recv_no_max_record_size_cex :
    2 ^ 20 < readU32
        ((sealedRecord idCipher 0 (List.replicate (2 ^ 21) 0)).take 4) ∧
      recvOne idCipher (sealedRecord idCipher 0 (List.replicate (2 ^ 21) 0)) 0 []
        = .record (List.replicate (2 ^ 21) 0) [] 1 [] := by
  have h32 : (idCipher.enc 0 (List.replicate (2 ^ 21) 0)).length < 2 ^ 32 := by
    rw [idCipher.length_enc, List.length_replicate]
    omega
  constructor
  · rw [sealedRecord_eq idCipher 0 _ h32, List.take_left' (be32_length _),
      readU32_be32 _ h32, idCipher.length_enc, List.length_replicate]
    omega
  · have h := recvOne_full idCipher (List.replicate (2 ^ 21) 0) [] 0 [] h32
    rw [List.append_nil] at h
    exact h

/-! ## Stream-map locking discipline in the proxy engines

The `Data` arm of each engine's `handle_frame` is abstracted as its
sequence of atomic events in source order: acquiring the stream-map
mutex, awaiting the send on the per-stream channel, and releasing the
mutex (a guard is released where it is dropped, at the end of its
enclosing block). -/

/-- Atomic events of a `handle_frame` `Data` arm. -/
inductive LockEvent where
  | acquire
  | sendAwait
  | release
deriving DecidableEq, Repr

/-- `ClientProxy::handle_frame`, `Data` arm (client_proxy.rs): the guard
`map` from `self.streams.lock().await` stays in scope around
`tx.send(frame.payload).await`; it is dropped only at the end of the
arm, so the send is awaited while the mutex is held. -/
def clientProxyDataTrace : List LockEvent :=
  [.acquire, .sendAwait, .release]

/-- `ServerProxy::handle_frame`, `Data` arm (server_proxy.rs): the sender
is cloned inside an inner block whose guard is dropped before
`tx.send(frame.payload).await` is awaited. -/
def serverProxyDataTrace : List LockEvent :=
  [.acquire, .release, .sendAwait]

/-- Whether a trace awaits a channel send while the mutex is held,
tracking the lock depth. -/
def sendWhileLocked : List LockEvent → Nat → Bool
  | [], _ => false
  | .acquire :: es, d => sendWhileLocked es (d + 1)
  | .release :: es, d => sendWhileLocked es (d - 1)
  | .sendAwait :: es, d => d != 0 || sendWhileLocked es d

/-- C10 is below; this is C5.  The claim says neither engine holds the
stream-map mutex across the awaited per-stream send.  Evaluating the two
`Data`-arm traces: the server engine conforms, but the client engine
awaits the send with the mutex held — the code contradicts the
discipline the sibling engine documents (`// Clone sender and release
lock before awaiting to prevent deadlock`). -/
theorem handle_frame_lock_discipline :
    sendWhileLocked clientProxyDataTrace 0 = true ∧
      sendWhileLocked serverProxyDataTrace 0 = false := by
  decide

/-! ## Client proxy local-to-tunnel loop (`ClientProxy::start_new_stream`) -/

/-- One loop iteration's input: the outcome of `rd.read(&mut buf)` into
the client's read buffer, together with the obfuscation randomness
(`some padding` when the coin flip succeeds and `padding` is drawn,
`none` otherwise).  `ok [] _` is `Ok(0)`, i.e. EOF. -/
inductive ReadEvent where
  | ok (data : List Nat) (pad : Option (List Nat))
  | err
deriving DecidableEq, Repr

/-- The client read buffer is `let mut buf = [0u8; 4096]`, so a single
read returns at most 4096 bytes. -/
def clientReadBufSize : Nat := 4096

/-- The frames the spawned socket-to-tunnel half emits for a given
sequence of reads: EOF (`Ok(0)`) or `Err` breaks the loop; a non-empty
read emits the optional `Padding` frame (drawn only for reads shorter
than 500 bytes) and then a `Data` frame with the read bytes; after the
loop one `Disconnect` frame with empty payload is emitted. -/
def clientToTunnel (stream_id : Nat) : List ReadEvent → List Frame
  | [] => [Frame.mk .Disconnect stream_id []]
  | .err :: _ => [Frame.mk .Disconnect stream_id []]
  | .ok [] _ :: _ => [Frame.mk .Disconnect stream_id []]
  | .ok data pad :: evs =>
    (if data.length < 500 then
      (match pad with
       | some padding => [Frame.mk .Padding stream_id padding]
       | none => [])
     else []) ++ (Frame.mk .Data stream_id data :: clientToTunnel stream_id evs)

/-- Number of bytes a read event delivers. -/
def ReadEvent.len : ReadEvent → Nat
  | .ok data _ => data.length
  | .err => 0

/-- C6 (amended): with every read bounded by the 4096-byte read buffer,
every `Data` frame the client engine emits has a payload of at most 4096
bytes (not 1400), and the emitted frame sequence always ends with the
empty-payload `Disconnect` for the stream. -/
theorem client_to_tunnel_bound (sid : Nat) (evs : List ReadEvent)
    (hread : ∀ e ∈ evs, e.len ≤ clientReadBufSize) :
    (∀ f ∈ clientToTunnel sid evs,
        f.frame_type = .Data → f.payload.length ≤ 4096) ∧
      (clientToTunnel sid evs).getLast? = some (Frame.mk .Disconnect sid []) := by
  induction evs with
  | nil =>
    refine ⟨?_, by simp [clientToTunnel]⟩
    intro f hf ht
    simp only [clientToTunnel, List.mem_singleton] at hf
    rw [hf] at ht
    simp at ht
  | cons e evs ih =>
    match e with
    | .err =>
      refine ⟨?_, by simp [clientToTunnel]⟩
      intro f hf ht
      simp only [clientToTunnel, List.mem_singleton] at hf
      rw [hf] at ht
      simp at ht
    | .ok [] p =>
      refine ⟨?_, by simp [clientToTunnel]⟩
      intro f hf ht
      simp only [clientToTunnel, List.mem_singleton] at hf
      rw [hf] at ht
      simp at ht
    | .ok (b :: bs) p =>
      have hrest : ∀ e ∈ evs, ReadEvent.len e ≤ clientReadBufSize :=
        fun e he => hread e (by simp [he])
      obtain ⟨ih1, ih2⟩ := ih hrest
      have hd : (b :: bs).length ≤ clientReadBufSize :=
        hread (.ok (b :: bs) p) (by simp)
      rcases p with _ | padding
      · constructor
        · intro f hf ht
          simp only [clientToTunnel, List.mem_append, List.mem_cons] at hf
          rcases hf with hpad | hf | hf
          · split at hpad <;> simp at hpad
          · rw [hf]
            exact hd
          · exact ih1 f hf ht
        · simp only [clientToTunnel, List.getLast?_append]
          rw [List.getLast?_cons, ih2]
          rfl
      · constructor
        · intro f hf ht
          simp only [clientToTunnel, List.mem_append, List.mem_cons] at hf
          rcases hf with hpad | hf | hf
          · have hft : f.frame_type = .Padding := by
              split at hpad
              · rw [List.mem_singleton] at hpad
                rw [hpad]
              · simp at hpad
            rw [hft] at ht
            simp at ht
          · rw [hf]
            exact hd
          · exact ih1 f hf ht
        · simp only [clientToTunnel, List.getLast?_append]
          rw [List.getLast?_cons, ih2]
          rfl

/-- Witness for `client_to_tunnel_bound`: one 3-byte read with a drawn
padding, then EOF. -/
theorem client_to_tunnel_bound_witness :
    (∀ f ∈ clientToTunnel 5 [.ok [1, 2, 3] (some [9, 9]), .ok [] none],
        f.frame_type = .Data → f.payload.length ≤ 4096) ∧
      (clientToTunnel 5 [.ok [1, 2, 3] (some [9, 9]), .ok [] none]).getLast?
        = some (Frame.mk .Disconnect 5 []) :=
  client_to_tunnel_bound 5 [.ok [1, 2, 3] (some [9, 9]), .ok [] none]
    (by decide)

/-- Counterexample to C6 as stated: a single read of 1401 bytes (possible,
since the client's buffer is 4096 bytes, not 1400) produces a `Data`
frame with a 1401-byte payload, above the claimed 1400-byte bound. -/
theorem client_to_tunnel_bound_cex :
    clientToTunnel 1 [.ok (List.replicate 1401 0) none]
      = [Frame.mk .Data 1 (List.replicate 1401 0), Frame.mk .Disconnect 1 []] ∧
      1400 < (List.replicate 1401 0).length ∧
      (List.replicate 1401 0).length ≤ clientReadBufSize := by
  refine ⟨?_, by simp, by simp [clientReadBufSize]⟩
  show (if (List.replicate 1401 (0 : Nat)).length < 500 then
      (match (none : Option (List Nat)) with
       | some padding => [Frame.mk .Padding 1 padding]
       | none => [])
     else []) ++ (Frame.mk .Data 1 (List.replicate 1401 0) :: clientToTunnel 1 [])
    = [Frame.mk .Data 1 (List.replicate 1401 0), Frame.mk .Disconnect 1 []]
  rw [List.length_replicate, if_neg (by omega)]
  rfl

/-! ## Server proxy engine (`ServerProxy::handle_frame`) and its
connection loop (`handle_connection`) -/

/-- UTF-8 validity of a byte sequence, as checked by Rust
`String::from_utf8` (RFC 3629: no continuation bytes out of place, no
overlong encodings, no surrogates, nothing above U+10FFFF). -/
def utf8Valid : List Nat → Bool
  | [] => true
  | b :: rest =>
    if b < 0x80 then utf8Valid rest
    else if b < 0xC2 then false
    else if b < 0xE0 then
      match rest with
      | c1 :: r => decide (0x80 ≤ c1 ∧ c1 < 0xC0) && utf8Valid r
      | [] => false
    else if b < 0xF0 then
      match rest with
      | c1 :: c2 :: r =>
        (if b = 0xE0 then decide (0xA0 ≤ c1 ∧ c1 < 0xC0)
         else if b = 0xED then decide (0x80 ≤ c1 ∧ c1 < 0xA0)
         else decide (0x80 ≤ c1 ∧ c1 < 0xC0)) &&
          decide (0x80 ≤ c2 ∧ c2 < 0xC0) && utf8Valid r
      | _ => false
    else if b < 0xF5 then
      match rest with
      | c1 :: c2 :: c3 :: r =>
        (if b = 0xF0 then decide (0x90 ≤ c1 ∧ c1 < 0xC0)
         else if b = 0xF4 then decide (0x80 ≤ c1 ∧ c1 < 0x90)
         else decide (0x80 ≤ c1 ∧ c1 < 0xC0)) &&
          decide (0x80 ≤ c2 ∧ c2 < 0xC0) &&
          decide (0x80 ≤ c3 ∧ c3 < 0xC0) && utf8Valid r
      | _ => false
    else false

/-- Externally visible actions `ServerProxy::handle_frame` can start. -/
inductive ServerEffect where
  | spawnDial (target : List Nat) (stream_id : Nat)
  | forward (stream_id : Nat) (payload : List Nat)
deriving DecidableEq, Repr

/-- `ServerProxy::handle_frame`, with the stream map abstracted to the set
of registered stream ids.  Returns the new map (or `none` when the
handler returns `Err`, as `String::from_utf8(...)?` does on a `Connect`
payload that is not valid UTF-8) together with the effects started
synchronously: `Connect` spawns the dial task (which dials and only then
inserts into the map, so the map is unchanged here); `Data` forwards the
payload when the id is registered and drops it otherwise; `Disconnect`
removes the id; `Padding` is ignored. -/
def ServerProxy.handleFrame (streams : List Nat) (f : Frame) :
    Option (List Nat) × List ServerEffect :=
  match f.frame_type with
  | .Connect =>
    if utf8Valid f.payload then
      (some streams, [.spawnDial f.payload f.stream_id])
    else (none, [])
  | .Data =>
    if f.stream_id ∈ streams then
      (some streams, [.forward f.stream_id f.payload])
    else (some streams, [])
  | .Disconnect => (some (streams.filter (fun i => i != f.stream_id)), [])
  | .Padding => (some streams, [])

/-- The frame-dispatch part of `handle_connection`: each parsed frame is
passed to `handle_frame` with `.await?`, so the first handler error
aborts the whole connection task (and with it every stream of the
session); later frames are not processed. -/
def processFrames (streams : List Nat) : List Frame → Option (List Nat)
  | [] => some streams
  | f :: fs =>
    match ServerProxy.handleFrame streams f with
    | (some st2, _) => processFrames st2 fs
    | (none, _) => none

/-- C10: a `Connect` frame whose payload is not valid UTF-8 makes
`handle_frame` return an error with no dial attempted and the stream map
untouched, and the server connection loop propagates the error,
terminating the entire session — the remaining frames (all streams) are
not processed. -/
theorem connect_invalid_utf8_fatal (streams : List Nat) (sid : Nat)
    (p : List Nat) (fs : List Frame) (hbad : utf8Valid p = false) :
    ServerProxy.handleFrame streams (Frame.mk .Connect sid p) = (none, []) ∧
      processFrames streams (Frame.mk .Connect sid p :: fs) = none := by
  have h1 : ServerProxy.handleFrame streams (Frame.mk .Connect sid p)
      = (none, []) := by
    simp [ServerProxy.handleFrame, hbad]
  refine ⟨h1, ?_⟩
  show (match ServerProxy.handleFrame streams (Frame.mk .Connect sid p) with
    | (some st2, _) => processFrames st2 fs
    | (none, _) => none) = none
  rw [h1]

/-- Witness for `connect_invalid_utf8_fatal`: payload `[0xFF]` (never valid
UTF-8) on stream 3, with a further frame pending and stream 7 registered. -/
theorem connect_invalid_utf8_fatal_witness :
    utf8Valid [0xFF] = false ∧
      ServerProxy.handleFrame [7] (Frame.mk .Connect 3 [0xFF]) = (none, []) ∧
      processFrames [7] [Frame.mk .Connect 3 [0xFF], Frame.mk .Padding 7 []]
        = none :=
  ⟨by decide,
    (connect_invalid_utf8_fatal [7] 3 [0xFF] [Frame.mk .Padding 7 []]
      (by decide)).1,
    (connect_invalid_utf8_fatal [7] 3 [0xFF] [Frame.mk .Padding 7 []]
      (by decide)).2⟩

/-! ## Path scorer (`chimera_ai/src/lib.rs`)

`f32` packet-loss values, the `f32` smoothing constants and the
millisecond `Duration` arithmetic are modelled as exact rationals, and
the `as u64` casts (which truncate toward zero and clamp negatives to 0)
as `⌊·⌋.toNat`.  Latency is carried in milliseconds.  The `Instant`
timestamps influence nothing observable and are omitted. -/

/-- `PathStats` (latency in milliseconds). -/
structure PathStats where
  latency : ℚ
  packet_loss : ℚ
  bandwidth : Nat
deriving DecidableEq, Repr

/-- `PathStats::new()`: 100 ms default latency, zero loss, 1 Mbit/s. -/
def PathStats.new : PathStats :=
  { latency := 100, packet_loss := 0, bandwidth := 1000000 }

/-- Truncating cast of a non-negative float to `u64` (`as u64` clamps
negatives to 0). -/
def qToU64 (q : ℚ) : Nat := ⌊q⌋.toNat

/-- `PathStats::score`: `latency_ms + (packet_loss * 1000.0) as u64`. -/
def PathStats.score (s : PathStats) : Nat :=
  qToU64 s.latency + qToU64 (s.packet_loss * 1000)

/-- The scorer's mutating events (`get_best_path`/`get_stats` are pure). -/
inductive ScorerEvent where
  | update_latency (name : String) (observed : ℚ)
  | report_failure (name : String)
deriving DecidableEq

/-- The router's path map, `HashMap<String, PathStats>` as an association
list. -/
def RouterPaths := List (String × PathStats)

/-- `paths.get_mut(name)`: apply `g` to the entry for `name`, if present. -/
def updateStats (paths : RouterPaths) (name : String)
    (g : PathStats → PathStats) : RouterPaths :=
  paths.map (fun e => if e.1 == name then (e.1, g e.2) else e)

/-- One scorer event.  `update_latency`: exponential smoothing
`latency ← 0.8·latency + 0.2·observed` and loss decay `loss ← loss·0.9`;
`report_failure`: `loss ← 1.0`. -/
def applyEvent (paths : RouterPaths) : ScorerEvent → RouterPaths
  | .update_latency name observed =>
    updateStats paths name (fun s =>
      { s with latency := s.latency * (8 / 10) + observed * (2 / 10),
               packet_loss := s.packet_loss * (9 / 10) })
  | .report_failure name =>
    updateStats paths name (fun s => { s with packet_loss := 1 })

def applyEvents (paths : RouterPaths) (evs : List ScorerEvent) : RouterPaths :=
  evs.foldl applyEvent paths

/-- `Router::get_stats` (`HashMap` lookup by name). -/
def getStats (paths : RouterPaths) (name : String) : Option PathStats :=
  match paths with
  | [] => none
  | e :: rest => if e.1 == name then some e.2 else getStats rest name

theorem getStats_updateStats_same (paths : RouterPaths) (name : String)
    (g : PathStats → PathStats) :
    getStats (updateStats paths name g) name = (getStats paths name).map g := by
  induction paths with
  | nil => rfl
  | cons e rest ih =>
    show getStats ((if e.1 == name then (e.1, g e.2) else e)
      :: updateStats rest name g) name = (getStats (e :: rest) name).map g
    by_cases h : (e.1 == name) = true
    · rw [if_pos h]
      show (if e.1 == name then some (g e.2)
          else getStats (updateStats rest name g) name)
        = (if e.1 == name then some e.2 else getStats rest name).map g
      rw [if_pos h, if_pos h]
      rfl
    · rw [if_neg h]
      show (if e.1 == name then some e.2
          else getStats (updateStats rest name g) name)
        = (if e.1 == name then some e.2 else getStats rest name).map g
      rw [if_neg h, if_neg h]
      exact ih

theorem getStats_updateStats_other (paths : RouterPaths) (name other : String)
    (g : PathStats → PathStats) (h : (other == name) = false) :
    getStats (updateStats paths other g) name = getStats paths name := by
  induction paths with
  | nil => rfl
  | cons e rest ih =>
    show getStats ((if e.1 == other then (e.1, g e.2) else e)
      :: updateStats rest other g) name = getStats (e :: rest) name
    by_cases he : (e.1 == other) = true
    · rw [if_pos he]
      have hf : (e.1 == name) = false := by
        have h1 : e.1 = other := by simpa using he
        rw [h1]
        exact h
      show (if e.1 == name then some (g e.2)
          else getStats (updateStats rest other g) name)
        = (if e.1 == name then some e.2 else getStats rest name)
      rw [if_neg (by simp [hf]), if_neg (by simp [hf])]
      exact ih
    · rw [if_neg he]
      show (if e.1 == name then some e.2
          else getStats (updateStats rest other g) name)
        = (if e.1 == name then some e.2 else getStats rest name)
      by_cases hn : (e.1 == name) = true
      · rw [if_pos hn, if_pos hn]
      · rw [if_neg hn, if_neg hn]
        exact ih

/-- A path whose loss is pinned at 1 keeps loss 1 through any sequence of
events containing no `update_latency` for it (`report_failure` rewrites
1, events on other paths leave it alone). -/
theorem loss_one_invariant (p : String) :
    ∀ (evs : List ScorerEvent) (st : RouterPaths) (s : PathStats),
      getStats st p = some s → s.packet_loss = 1 →
      (∀ q, ScorerEvent.update_latency p q ∉ evs) →
      ∃ s2, getStats (applyEvents st evs) p = some s2 ∧ s2.packet_loss = 1 := by
  intro evs
  induction evs with
  | nil =>
    intro st s h1 h2 _
    exact ⟨s, h1, h2⟩
  | cons e evs ih =>
    intro st s h1 h2 hno
    show ∃ s2, getStats (applyEvents (applyEvent st e) evs) p = some s2
      ∧ s2.packet_loss = 1
    match e with
    | .update_latency name obs =>
      have hne : (name == p) = false := by
        by_cases hb : name = p
        · exact absurd (by rw [hb]; exact List.mem_cons_self _ _) (hno obs)
        · simp [hb]
      have hst : getStats (applyEvent st (.update_latency name obs)) p
          = getStats st p :=
        getStats_updateStats_other st p name
          (fun s => { s with latency := s.latency * (8 / 10) + obs * (2 / 10),
                             packet_loss := s.packet_loss * (9 / 10) }) hne
      exact ih (applyEvent st (.update_latency name obs)) s
        (by rw [hst]; exact h1) h2 (fun q hq => hno q (by simp [hq]))
    | .report_failure name =>
      by_cases hb : (name == p) = true
      · have heq : name = p := by simpa using hb
        subst heq
        refine ih _ { s with packet_loss := 1 } ?_ rfl
          (fun q hq => hno q (by simp [hq]))
        show getStats (updateStats st name (fun s => { s with packet_loss := 1 }))
          name = some { s with packet_loss := 1 }
        rw [getStats_updateStats_same, h1]
        rfl
      · have hst : getStats (applyEvent st (.report_failure name)) p
            = getStats st p :=
          getStats_updateStats_other st p name
            (fun s => { s with packet_loss := 1 }) (by simpa using hb)
        exact ih _ s (by rw [hst]; exact h1) h2
          (fun q hq => hno q (by simp [hq]))

/-- A loss pinned at 1 forces a score of at least 1000. -/
theorem score_of_loss_one (s : PathStats) (h : s.packet_loss = 1) :
    1000 ≤ s.score := by
  unfold PathStats.score
  rw [h]
  have h1 : qToU64 ((1 : ℚ) * 1000) = 1000 := by
    rw [one_mul]
    show (⌊(1000 : ℚ)⌋).toNat = 1000
    rw [show ⌊(1000 : ℚ)⌋ = 1000 by norm_num]
    rfl
  rw [h1]
  omega

/-- C8: for every registered path `p` and every sequence of mutating
scorer events containing no `update_latency` for `p`, immediately after
`report_failure(p)` the loss of `p` is 1 and its score
(`latency_ms + 1000·loss`) is at least 1000, and it stays so until a
subsequent `update_latency(p, _)`, which multiplies the loss component by
exactly 0.9 — a strict reduction from the positive loss. -/
theorem scorer_failure_penalty (st : RouterPaths) (p : String)
    (evs : List ScorerEvent) (s0 : PathStats) (d : ℚ)
    (hreg : getStats st p = some s0)
    (hno : ∀ q, ScorerEvent.update_latency p q ∉ evs) :
    ∃ s1, getStats (applyEvents (applyEvent st (.report_failure p)) evs) p
        = some s1
      ∧ s1.packet_loss = 1
      ∧ 1000 ≤ s1.score
      ∧ ∃ s2, getStats (applyEvent
            (applyEvents (applyEvent st (.report_failure p)) evs)
            (.update_latency p d)) p = some s2
          ∧ s2.packet_loss = s1.packet_loss * (9 / 10)
          ∧ s2.packet_loss < s1.packet_loss := by
  have h1 : getStats (applyEvent st (.report_failure p)) p
      = some { s0 with packet_loss := 1 } := by
    show getStats (updateStats st p (fun s => { s with packet_loss := 1 })) p
      = some { s0 with packet_loss := 1 }
    rw [getStats_updateStats_same, hreg]
    rfl
  obtain ⟨s1, hs1, hl1⟩ := loss_one_invariant p evs _ _ h1 rfl hno
  refine ⟨s1, hs1, hl1, score_of_loss_one s1 hl1, ?_⟩
  have h2 : getStats (applyEvent
      (applyEvents (applyEvent st (.report_failure p)) evs)
      (.update_latency p d)) p
      = some { s1 with latency := s1.latency * (8 / 10) + d * (2 / 10),
                       packet_loss := s1.packet_loss * (9 / 10) } := by
    show getStats (updateStats
        (applyEvents (applyEvent st (.report_failure p)) evs) p
        (fun s => { s with latency := s.latency * (8 / 10) + d * (2 / 10),
                           packet_loss := s.packet_loss * (9 / 10) })) p
      = some { s1 with latency := s1.latency * (8 / 10) + d * (2 / 10),
                       packet_loss := s1.packet_loss * (9 / 10) }
    rw [getStats_updateStats_same, hs1]
    rfl
  refine ⟨_, h2, rfl, ?_⟩
  show s1.packet_loss * (9 / 10) < s1.packet_loss
  rw [hl1]
  norm_num

/-- Witness for `scorer_failure_penalty`: registry `{TCP ↦ default}`, a
failure on `TCP`, then a failure on another path; the score of `TCP` is
still at least 1000. -/
theorem scorer_failure_penalty_witness :
    1000 ≤ ((getStats (applyEvents
        (applyEvent [("TCP", PathStats.new)] (.report_failure "TCP"))
        [.report_failure "BlockedProtocol"]) "TCP").map PathStats.score).getD 0 := by
  obtain ⟨s1, hs1, hl1, hsc, _⟩ :=
    scorer_failure_penalty [("TCP", PathStats.new)] "TCP"
      [.report_failure "BlockedProtocol"] PathStats.new 50
      (by rfl) (by intro q hq; simp at hq)
  rw [hs1]
  simpa using hsc

/-! ## HTTP mimic (`chimera_core/src/mimic.rs`)

The mimic operates on text; packets are modelled as the `List Char` the
Rust code obtains via `String::from_utf8_lossy` (all strings involved
are ASCII, where that conversion is the identity).  The URL-safe
no-padding base64 engine of the external `base64` crate is embedded
directly: encode maps 3-byte groups to 4 alphabet characters (2 or 3 for
a 1- or 2-byte remainder), decode inverts it, failing on characters
outside the alphabet, on length ≡ 1 (mod 4), and on non-zero trailing
bits. -/

/-- Character of the URL-safe alphabet for a sextet. -/
def b64Char (n : Nat) : Char :=
  if n < 26 then Char.ofNat (65 + n)
  else if n < 52 then Char.ofNat (97 + (n - 26))
  else if n < 62 then Char.ofNat (48 + (n - 52))
  else if n = 62 then Char.ofNat 45
  else Char.ofNat 95

/-- Sextet of an alphabet character (`none` outside the alphabet). -/
def b64Index (c : Char) : Option Nat :=
  if 65 ≤ c.toNat ∧ c.toNat ≤ 90 then some (c.toNat - 65)
  else if 97 ≤ c.toNat ∧ c.toNat ≤ 122 then some (c.toNat - 97 + 26)
  else if 48 ≤ c.toNat ∧ c.toNat ≤ 57 then some (c.toNat - 48 + 52)
  else if c.toNat = 45 then some 62
  else if c.toNat = 95 then some 63
  else none

/-- URL-safe no-padding base64 encoding of a byte string. -/
def b64Encode : List Nat → List Char
  | [] => []
  | [b1] => [b64Char (b1 / 4), b64Char (b1 % 4 * 16)]
  | [b1, b2] =>
    [b64Char (b1 / 4), b64Char (b1 % 4 * 16 + b2 / 16), b64Char (b2 % 16 * 4)]
  | b1 :: b2 :: b3 :: rest =>
    b64Char (b1 / 4) :: b64Char (b1 % 4 * 16 + b2 / 16) ::
      b64Char (b2 % 16 * 4 + b3 / 64) :: b64Char (b3 % 64) :: b64Encode rest

/-- Alphabet lookup of every character (`none` on the first bad one). -/
def b64Sextets : List Char → Option (List Nat)
  | [] => some []
  | c :: cs =>
    match b64Index c, b64Sextets cs with
    | some v, some vs => some (v :: vs)
    | _, _ => none

/-- Byte reconstruction from sextets; rejects length ≡ 1 (mod 4) and
non-zero trailing bits (the crate's canonical-encoding check). -/
def b64FromSextets : List Nat → Option (List Nat)
  | [] => some []
  | [_] => none
  | [s1, s2] => if s2 % 16 = 0 then some [s1 * 4 + s2 / 16] else none
  | [s1, s2, s3] =>
    if s3 % 4 = 0 then some [s1 * 4 + s2 / 16, s2 % 16 * 16 + s3 / 4] else none
  | s1 :: s2 :: s3 :: s4 :: rest =>
    (b64FromSextets rest).map
      (fun bs => (s1 * 4 + s2 / 16) :: (s2 % 16 * 16 + s3 / 4) ::
        (s3 % 4 * 64 + s4) :: bs)

/-- `URL_SAFE_NO_PAD.decode`. -/
def b64Decode (cs : List Char) : Option (List Nat) :=
  (b64Sextets cs).bind b64FromSextets

theorem b64Index_b64Char : ∀ n, n < 64 → b64Index (b64Char n) = some n := by
  decide

/-- Every alphabet character has code point at least 45; in particular it
is none of space (32), CR (13) or LF (10). -/
theorem b64Char_toNat_ge : ∀ n, n < 64 → 45 ≤ (b64Char n).toNat := by
  decide

theorem b64Sextets_cons (c : Char) (cs : List Char) (v : Nat) (vs : List Nat)
    (h1 : b64Index c = some v) (h2 : b64Sextets cs = some vs) :
    b64Sextets (c :: cs) = some (v :: vs) := by
  unfold b64Sextets
  rw [h1, h2]

/-- Every character emitted by the encoder is an alphabet character (code
point at least 45), provided the input consists of bytes. -/
theorem b64Encode_class (bs : List Nat) (hb : ∀ b ∈ bs, b < 256) :
    ∀ c ∈ b64Encode bs, 45 ≤ c.toNat := by
  match bs with
  | [] =>
    intro c hc
    simp [b64Encode] at hc
  | [b1] =>
    intro c hc
    have h1 : b1 < 256 := hb b1 (by simp)
    simp only [b64Encode, List.mem_cons, List.not_mem_nil, or_false] at hc
    rcases hc with h | h
    · rw [h]; exact b64Char_toNat_ge _ (by omega)
    · rw [h]; exact b64Char_toNat_ge _ (by omega)
  | [b1, b2] =>
    intro c hc
    have h1 : b1 < 256 := hb b1 (by simp)
    have h2 : b2 < 256 := hb b2 (by simp)
    simp only [b64Encode, List.mem_cons, List.not_mem_nil, or_false] at hc
    rcases hc with h | h | h
    · rw [h]; exact b64Char_toNat_ge _ (by omega)
    · rw [h]; exact b64Char_toNat_ge _ (by omega)
    · rw [h]; exact b64Char_toNat_ge _ (by omega)
  | b1 :: b2 :: b3 :: r1 :: rest =>
    intro c hc
    have h1 : b1 < 256 := hb b1 (by simp)
    have h2 : b2 < 256 := hb b2 (by simp)
    have h3 : b3 < 256 := hb b3 (by simp)
    have ih := b64Encode_class (r1 :: rest) (fun b hbm => hb b (by simp [hbm]))
    simp only [b64Encode, List.mem_cons] at hc
    rcases hc with h | h | h | h | h
    · rw [h]; exact b64Char_toNat_ge _ (by omega)
    · rw [h]; exact b64Char_toNat_ge _ (by omega)
    · rw [h]; exact b64Char_toNat_ge _ (by omega)
    · rw [h]; exact b64Char_toNat_ge _ (by omega)
    · exact ih c h
  | [b1, b2, b3] =>
    intro c hc
    have h1 : b1 < 256 := hb b1 (by simp)
    have h2 : b2 < 256 := hb b2 (by simp)
    have h3 : b3 < 256 := hb b3 (by simp)
    simp only [b64Encode, List.mem_cons, List.not_mem_nil, or_false] at hc
    rcases hc with h | h | h | h
    · rw [h]; exact b64Char_toNat_ge _ (by omega)
    · rw [h]; exact b64Char_toNat_ge _ (by omega)
    · rw [h]; exact b64Char_toNat_ge _ (by omega)
    · rw [h]; exact b64Char_toNat_ge _ (by omega)

/-- Decoding inverts encoding on byte strings. -/
theorem b64_roundtrip (bs : List Nat) (hb : ∀ b ∈ bs, b < 256) :
    b64Decode (b64Encode bs) = some bs := by
  match bs with
  | [] => rfl
  | [b1] =>
    have h1 : b1 < 256 := hb b1 (by simp)
    show (b64Sextets [b64Char (b1 / 4), b64Char (b1 % 4 * 16)]).bind
      b64FromSextets = some [b1]
    rw [b64Sextets_cons _ _ _ [b1 % 4 * 16]
      (b64Index_b64Char _ (by omega))
      (b64Sextets_cons _ [] _ [] (b64Index_b64Char _ (by omega)) rfl)]
    show b64FromSextets [b1 / 4, b1 % 4 * 16] = some [b1]
    unfold b64FromSextets
    rw [if_pos (by omega)]
    congr 1
    congr 1
    omega
  | [b1, b2] =>
    have h1 : b1 < 256 := hb b1 (by simp)
    have h2 : b2 < 256 := hb b2 (by simp)
    show (b64Sextets [b64Char (b1 / 4), b64Char (b1 % 4 * 16 + b2 / 16),
      b64Char (b2 % 16 * 4)]).bind b64FromSextets = some [b1, b2]
    rw [b64Sextets_cons _ _ _ [b1 % 4 * 16 + b2 / 16, b2 % 16 * 4]
      (b64Index_b64Char _ (by omega))
      (b64Sextets_cons _ _ _ [b2 % 16 * 4] (b64Index_b64Char _ (by omega))
        (b64Sextets_cons _ [] _ [] (b64Index_b64Char _ (by omega)) rfl))]
    show b64FromSextets [b1 / 4, b1 % 4 * 16 + b2 / 16, b2 % 16 * 4]
      = some [b1, b2]
    unfold b64FromSextets
    rw [if_pos (by omega)]
    congr 1
    congr 1
    · omega
    · congr 1
      omega
  | b1 :: b2 :: b3 :: r1 :: rest =>
    have h1 : b1 < 256 := hb b1 (by simp)
    have h2 : b2 < 256 := hb b2 (by simp)
    have h3 : b3 < 256 := hb b3 (by simp)
    have ih := b64_roundtrip (r1 :: rest) (fun b hbm => hb b (by simp [hbm]))
    unfold b64Decode at ih
    match hsx : b64Sextets (b64Encode (r1 :: rest)) with
    | none => rw [hsx] at ih; exact absurd ih (by simp)
    | some vs =>
      rw [hsx] at ih
      have hfrom : b64FromSextets vs = some (r1 :: rest) := ih
      show (b64Sextets (b64Char (b1 / 4) :: b64Char (b1 % 4 * 16 + b2 / 16) ::
        b64Char (b2 % 16 * 4 + b3 / 64) :: b64Char (b3 % 64) ::
        b64Encode (r1 :: rest))).bind b64FromSextets
        = some (b1 :: b2 :: b3 :: r1 :: rest)
      rw [b64Sextets_cons _ _ _ ((b1 % 4 * 16 + b2 / 16)
          :: (b2 % 16 * 4 + b3 / 64) :: b3 % 64 :: vs)
        (b64Index_b64Char _ (by omega))
        (b64Sextets_cons _ _ _ ((b2 % 16 * 4 + b3 / 64) :: b3 % 64 :: vs)
          (b64Index_b64Char _ (by omega))
          (b64Sextets_cons _ _ _ (b3 % 64 :: vs)
            (b64Index_b64Char _ (by omega))
            (b64Sextets_cons _ _ _ vs (b64Index_b64Char _ (by omega)) hsx)))]
      show b64FromSextets ((b1 / 4) :: (b1 % 4 * 16 + b2 / 16)
        :: (b2 % 16 * 4 + b3 / 64) :: b3 % 64 :: vs)
        = some (b1 :: b2 :: b3 :: r1 :: rest)
      rw [b64FromSextets, hfrom]
      show some ((b1 / 4 * 4 + (b1 % 4 * 16 + b2 / 16) / 16)
        :: ((b1 % 4 * 16 + b2 / 16) % 16 * 16 + (b2 % 16 * 4 + b3 / 64) / 4)
        :: ((b2 % 16 * 4 + b3 / 64) % 4 * 64 + b3 % 64) :: r1 :: rest)
        = some (b1 :: b2 :: b3 :: r1 :: rest)
      congr 1
      congr 1
      · omega
      · congr 1
        · omega
        · congr 1
          omega
  | [b1, b2, b3] =>
    have h1 : b1 < 256 := hb b1 (by simp)
    have h2 : b2 < 256 := hb b2 (by simp)
    have h3 : b3 < 256 := hb b3 (by simp)
    show (b64Sextets [b64Char (b1 / 4), b64Char (b1 % 4 * 16 + b2 / 16),
      b64Char (b2 % 16 * 4 + b3 / 64), b64Char (b3 % 64)]).bind b64FromSextets
      = some [b1, b2, b3]
    rw [b64Sextets_cons _ _ _ [b1 % 4 * 16 + b2 / 16, b2 % 16 * 4 + b3 / 64,
        b3 % 64]
      (b64Index_b64Char _ (by omega))
      (b64Sextets_cons _ _ _ [b2 % 16 * 4 + b3 / 64, b3 % 64]
        (b64Index_b64Char _ (by omega))
        (b64Sextets_cons _ _ _ [b3 % 64] (b64Index_b64Char _ (by omega))
          (b64Sextets_cons _ [] _ [] (b64Index_b64Char _ (by omega)) rfl)))]
    show b64FromSextets [b1 / 4, b1 % 4 * 16 + b2 / 16, b2 % 16 * 4 + b3 / 64,
      b3 % 64] = some [b1, b2, b3]
    rw [b64FromSextets]
    show Option.map _ (b64FromSextets []) = _
    rw [b64FromSextets]
    show some ((b1 / 4 * 4 + (b1 % 4 * 16 + b2 / 16) / 16)
      :: ((b1 % 4 * 16 + b2 / 16) % 16 * 16 + (b2 % 16 * 4 + b3 / 64) / 4)
      :: ((b2 % 16 * 4 + b3 / 64) % 4 * 64 + b3 % 64) :: [])
      = some [b1, b2, b3]
    congr 1
    congr 1
    · omega
    · congr 1
      · omega
      · congr 1
        omega

/-- `str::find`: index of the first occurrence of `pat` in `s`. -/
def findSub (pat s : List Char) : Option Nat :=
  if pat.isPrefixOf s then some 0
  else
    match s with
    | [] => none
    | _ :: t => (findSub pat t).map (· + 1)

theorem findSub_at_zero (pat s : List Char)
    (h : pat.isPrefixOf s = true) : findSub pat s = some 0 := by
  unfold findSub
  rw [if_pos h]

theorem findSub_cons_miss (pat : List Char) (a : Char) (t : List Char)
    (h : pat.isPrefixOf (a :: t) = false) :
    findSub pat (a :: t) = (findSub pat t).map (· + 1) := by
  conv_lhs => rw [findSub]
  rw [if_neg (by simp [h])]

theorem isPrefixOf_append_self {α : Type} [BEq α] [LawfulBEq α] :
    ∀ (l r : List α), l.isPrefixOf (l ++ r) = true := by
  intro l r
  induction l with
  | nil => simp
  | cons a t ih => simpa [List.isPrefixOf] using ih

/-- A successful prefix test pins every character of `s` under the
pattern. -/
theorem isPrefixOf_getElem? :
    ∀ (pat s : List Char), pat.isPrefixOf s = true →
      ∀ (k : Nat) (c : Char), pat[k]? = some c → s[k]? = some c := by
  intro pat
  induction pat with
  | nil =>
    intro s h k c hc
    simp at hc
  | cons p pr ih =>
    intro s h k c hc
    match s with
    | [] => simp [List.isPrefixOf] at h
    | a :: as =>
      simp only [List.isPrefixOf, Bool.and_eq_true, beq_iff_eq] at h
      obtain ⟨hpa, hrest⟩ := h
      match k with
      | 0 =>
        simp only [List.getElem?_cons_zero, Option.some.injEq] at hc ⊢
        rw [← hpa, hc]
      | k + 1 =>
        simp only [List.getElem?_cons_succ] at hc ⊢
        exact ih as hrest k c hc

theorem not_isPrefixOf_of_ne_at (pat s : List Char) (k : Nat) (pc : Char)
    (hp : pat[k]? = some pc) (hs : s[k]? ≠ some pc) :
    pat.isPrefixOf s = false := by
  cases hpre : pat.isPrefixOf s with
  | false => rfl
  | true => exact absurd (isPrefixOf_getElem? pat s hpre k pc hp) hs

/-- When no occurrence starts inside `head` and the pattern sits exactly at
the seam, the first occurrence is at `head.length`. -/
theorem findSub_append_skip (pat : List Char) :
    ∀ (head tail : List Char),
      (∀ i, i < head.length → pat.isPrefixOf ((head ++ tail).drop i) = false) →
      pat.isPrefixOf tail = true →
      findSub pat (head ++ tail) = some head.length := by
  intro head
  induction head with
  | nil =>
    intro tail hno hp
    simpa using findSub_at_zero pat tail hp
  | cons a h ih =>
    intro tail hno hp
    have h0 : pat.isPrefixOf (a :: (h ++ tail)) = false := by
      have := hno 0 (by simp)
      simpa using this
    rw [show (a :: h) ++ tail = a :: (h ++ tail) from rfl,
      findSub_cons_miss pat a (h ++ tail) h0,
      ih tail (fun i hi => by
        have := hno (i + 1) (by simp only [List.length_cons]; omega)
        simpa using this) hp]
    rfl

theorem findSub_none (pat : List Char) :
    ∀ (s : List Char), (∀ i, pat.isPrefixOf (s.drop i) = false) →
      findSub pat s = none := by
  intro s
  induction s with
  | nil =>
    intro h
    unfold findSub
    rw [if_neg (by have h0 := h 0; simp only [List.drop_nil] at h0; simp [h0])]
  | cons a t ih =>
    intro h
    rw [findSub_cons_miss pat a t (by simpa using h 0),
      ih (fun i => by simpa using h (i + 1))]
    rfl

/-- Characters of a base64-encoded string never equal a character with
code point below 45 (space, CR, LF). -/
theorem b64Encode_getElem?_ne (pk : List Nat) (hb : ∀ b ∈ pk, b < 256)
    (c : Char) (hc : c.toNat < 45) : ∀ j : Nat, (b64Encode pk)[j]? ≠ some c := by
  intro j h
  have hmem : c ∈ b64Encode pk := List.getElem?_mem h
  have := b64Encode_class pk hb c hmem
  omega

theorem getElem?_ne_all (l : List Char) (c : Char)
    (h : ∀ j : Nat, j < l.length → l[j]? ≠ some c) :
    ∀ j : Nat, l[j]? ≠ some c := by
  intro j
  by_cases hj : j < l.length
  · exact h j hj
  · rw [List.getElem?_eq_none (by omega)]
    simp

theorem getElem?_append_ne (l1 l2 : List Char) (c : Char)
    (h1 : ∀ j : Nat, l1[j]? ≠ some c) (h2 : ∀ j : Nat, l2[j]? ≠ some c) :
    ∀ j : Nat, (l1 ++ l2)[j]? ≠ some c := by
  intro j
  by_cases hj : j < l1.length
  · rw [List.getElem?_append_left hj]
    exact h1 j
  · rw [List.getElem?_append_right (by omega)]
    exact h2 _

/-- `"GET /api/v1/resource/"` (21 characters). -/
def reqMarkerStr : List Char := "GET /api/v1/resource/".toList

/-- `" HTTP/1.1"`. -/
def httpVersionStr : List Char := " HTTP/1.1".toList

/-- `"X-Data: "` (8 characters). -/
def xDataStr : List Char := "X-Data: ".toList

/-- `"\r\n"`. -/
def crlfStr : List Char := "\r\n".toList

/-- The request after the base64 payload:
`" HTTP/1.1\r\nHost: cdn.example.com\r\nUser-Agent: Chimera/1.0\r\nConnection: keep-alive\r\n\r\n"`. -/
def reqTailStr : List Char :=
  (" HTTP/1.1\r\nHost: cdn.example.com\r\nUser-Agent: " ++
    "Chimera/1.0\r\nConnection: keep-alive\r\n\r\n").toList

/-- The response headers before `X-Data: `:
`"HTTP/1.1 200 OK\r\nServer: Chuck/1.0\r\nContent-Type: text/html\r\nContent-Length: 0\r\n"`. -/
def respBaseStr : List Char :=
  ("HTTP/1.1 200 OK\r\nServer: Chuck/1.0\r\nContent-Type: text/html\r\n" ++
    "Content-Length: 0\r\n").toList

/-- The response after the base64 payload: `"\r\n\r\n"`. -/
def respTailStr : List Char := "\r\n\r\n".toList

/-- `HttpMimic::encapsulate`: base64-encode the payload and wrap it in
the GET request (client) or the 200 OK response with `X-Data` header
(server). -/
def HttpMimic.encapsulate (payload : List Nat) (is_server : Bool) : List Char :=
  let encoded := b64Encode payload
  if is_server then respBaseStr ++ xDataStr ++ encoded ++ respTailStr
  else reqMarkerStr ++ encoded ++ reqTailStr

/-- `HttpMimic::decapsulate` on the text of the packet
(`String::from_utf8_lossy` is the identity on the ASCII packets in
scope).  Result: `none` models `Err` (base64 decode failure),
`some none` models `Ok(None)` (not recognized), `some (some bytes)`
models `Ok(Some(bytes))`.  The slice `text[start+21..start+end]` is
modelled with truncating `Nat` subtraction (Rust would panic if the
` HTTP/1.1` hit ended before offset 21; no claim exercises that). -/
def HttpMimic.decapsulate (packet : List Char) : Option (Option (List Nat)) :=
  match findSub reqMarkerStr packet with
  | some start =>
    match findSub httpVersionStr (packet.drop start) with
    | some endi =>
      (b64Decode ((packet.drop (start + 21)).take (endi - 21))).map some
    | none =>
      match findSub xDataStr packet with
      | some s2 =>
        match findSub crlfStr (packet.drop s2) with
        | some e2 =>
          (b64Decode ((packet.drop (s2 + 8)).take (e2 - 8))).map some
        | none => some none
      | none => some none
  | none =>
    match findSub xDataStr packet with
    | some s2 =>
      match findSub crlfStr (packet.drop s2) with
      | some e2 =>
        (b64Decode ((packet.drop (s2 + 8)).take (e2 - 8))).map some
      | none => some none
    | none => some none

theorem reqMarkerStr_space : ∀ i : Nat, i < 21 → i ≠ 3 →
    reqMarkerStr[i]? ≠ some (Char.ofNat 32) := by
  decide

/-- Decapsulating the client request recovers the payload. -/
theorem decap_encap_request (pk : List Nat) (hb : ∀ b ∈ pk, b < 256) :
    HttpMimic.decapsulate (HttpMimic.encapsulate pk false) = some (some pk) := by
  have hreq : HttpMimic.encapsulate pk false
      = reqMarkerStr ++ b64Encode pk ++ reqTailStr := rfl
  have hml : reqMarkerStr.length = 21 := rfl
  have henc_space : ∀ j : Nat, (b64Encode pk)[j]? ≠ some (Char.ofNat 32) :=
    b64Encode_getElem?_ne pk hb (Char.ofNat 32) (by decide)
  have hf1 : findSub reqMarkerStr (reqMarkerStr ++ b64Encode pk ++ reqTailStr)
      = some 0 := by
    apply findSub_at_zero
    rw [List.append_assoc]
    exact isPrefixOf_append_self _ _
  have hno : ∀ i, i < (reqMarkerStr ++ b64Encode pk).length →
      httpVersionStr.isPrefixOf
        (((reqMarkerStr ++ b64Encode pk) ++ reqTailStr).drop i) = false := by
    intro i hi
    have hi2 : i < 21 + (b64Encode pk).length := by
      simpa [List.length_append, hml] using hi
    by_cases hi3 : i = 3
    · subst hi3
      apply not_isPrefixOf_of_ne_at _ _ 1 (Char.ofNat 72) (by decide)
      rw [List.getElem?_drop]
      rw [List.getElem?_append_left (show (3 + 1 : Nat)
        < (reqMarkerStr ++ b64Encode pk).length by
          simp only [List.length_append, hml]; omega)]
      rw [List.getElem?_append_left (show (3 + 1 : Nat) < reqMarkerStr.length by
        rw [hml]; omega)]
      decide
    · by_cases hi21 : i < 21
      · apply not_isPrefixOf_of_ne_at _ _ 0 (Char.ofNat 32) (by decide)
        rw [List.getElem?_drop]
        rw [List.getElem?_append_left (show i + 0
          < (reqMarkerStr ++ b64Encode pk).length by
            simp only [List.length_append, hml]; omega)]
        rw [List.getElem?_append_left (show i + 0 < reqMarkerStr.length by
          rw [hml]; omega)]
        exact reqMarkerStr_space i (by omega) (by omega)
      · apply not_isPrefixOf_of_ne_at _ _ 0 (Char.ofNat 32) (by decide)
        rw [List.getElem?_drop]
        rw [List.getElem?_append_left (show i + 0
          < (reqMarkerStr ++ b64Encode pk).length by
            simp only [List.length_append, hml]; omega)]
        rw [List.getElem?_append_right (show reqMarkerStr.length ≤ i + 0 by
          rw [hml]; omega)]
        exact henc_space _
  have hf2 : findSub httpVersionStr
      (reqMarkerStr ++ b64Encode pk ++ reqTailStr)
      = some (21 + (b64Encode pk).length) := by
    have h := findSub_append_skip httpVersionStr (reqMarkerStr ++ b64Encode pk)
      reqTailStr hno (by decide)
    simpa [List.length_append, hml] using h
  rw [hreq]
  unfold HttpMimic.decapsulate
  rw [hf1]
  dsimp only
  rw [List.drop_zero, hf2]
  dsimp only
  rw [show (0 : Nat) + 21 = 21 from rfl,
    show 21 + (b64Encode pk).length - 21 = (b64Encode pk).length by omega]
  rw [show (reqMarkerStr ++ b64Encode pk ++ reqTailStr).drop 21
    = b64Encode pk ++ reqTailStr by
      rw [List.append_assoc]; exact List.drop_left' hml]
  rw [List.take_left, b64_roundtrip pk hb]
  rfl

theorem respHead_no_G : ∀ i : Nat, i < 88 →
    (respBaseStr ++ xDataStr)[i]? ≠ some (Char.ofNat 71) := by
  decide

theorem respBase_no_X : ∀ i : Nat, i < 80 →
    respBaseStr[i]? ≠ some (Char.ofNat 88) := by
  decide

/-- Decapsulating the server response recovers the payload. -/
theorem decap_encap_response (pk : List Nat) (hb : ∀ b ∈ pk, b < 256) :
    HttpMimic.decapsulate (HttpMimic.encapsulate pk true) = some (some pk) := by
  have hresp : HttpMimic.encapsulate pk true
      = respBaseStr ++ xDataStr ++ b64Encode pk ++ respTailStr := rfl
  have hbl : respBaseStr.length = 80 := rfl
  have hxl : xDataStr.length = 8 := rfl
  have hhl : (respBaseStr ++ xDataStr).length = 88 := rfl
  have henc_space : ∀ j : Nat, (b64Encode pk)[j]? ≠ some (Char.ofNat 32) :=
    b64Encode_getElem?_ne pk hb (Char.ofNat 32) (by decide)
  have henc_cr : ∀ j : Nat, (b64Encode pk)[j]? ≠ some (Char.ofNat 13) :=
    b64Encode_getElem?_ne pk hb (Char.ofNat 13) (by decide)
  have htail_space : ∀ j : Nat, respTailStr[j]? ≠ some (Char.ofNat 32) :=
    getElem?_ne_all _ _ (by decide)
  have hxd_cr : ∀ j : Nat, xDataStr[j]? ≠ some (Char.ofNat 13) :=
    getElem?_ne_all _ _ (by decide)
  -- the GET marker occurs nowhere in the response
  have hG : findSub reqMarkerStr
      (respBaseStr ++ xDataStr ++ b64Encode pk ++ respTailStr) = none := by
    apply findSub_none
    intro i
    by_cases hi : i < 88
    · apply not_isPrefixOf_of_ne_at _ _ 0 (Char.ofNat 71) (by decide)
      rw [List.getElem?_drop]
      rw [List.getElem?_append_left (show i + 0
        < (respBaseStr ++ xDataStr ++ b64Encode pk).length by
          simp only [List.length_append, hbl, hxl]; omega)]
      rw [show respBaseStr ++ xDataStr ++ b64Encode pk
        = (respBaseStr ++ xDataStr) ++ b64Encode pk from rfl]
      rw [List.getElem?_append_left (show i + 0
        < (respBaseStr ++ xDataStr).length by rw [hhl]; omega)]
      exact respHead_no_G i (by omega)
    · apply not_isPrefixOf_of_ne_at _ _ 3 (Char.ofNat 32) (by decide)
      rw [List.getElem?_drop]
      rw [show respBaseStr ++ xDataStr ++ b64Encode pk ++ respTailStr
        = (respBaseStr ++ xDataStr) ++ (b64Encode pk ++ respTailStr) by
          simp [List.append_assoc]]
      rw [List.getElem?_append_right (show (respBaseStr ++ xDataStr).length
        ≤ i + 3 by rw [hhl]; omega)]
      exact getElem?_append_ne _ _ _ henc_space htail_space _
  -- the X-Data marker is first found at offset 80
  have hX : findSub xDataStr
      (respBaseStr ++ xDataStr ++ b64Encode pk ++ respTailStr) = some 80 := by
    rw [show respBaseStr ++ xDataStr ++ b64Encode pk ++ respTailStr
      = respBaseStr ++ (xDataStr ++ (b64Encode pk ++ respTailStr)) by
        simp [List.append_assoc]]
    have h := findSub_append_skip xDataStr respBaseStr
      (xDataStr ++ (b64Encode pk ++ respTailStr)) ?hno
      (isPrefixOf_append_self _ _)
    · rw [h, hbl]
    case hno =>
      intro i hi
      apply not_isPrefixOf_of_ne_at _ _ 0 (Char.ofNat 88) (by decide)
      rw [List.getElem?_drop]
      rw [List.getElem?_append_left (show i + 0 < respBaseStr.length by
        rw [hbl]; rw [hbl] at hi; omega)]
      exact respBase_no_X i (by rw [hbl] at hi; omega)
  have hdrop80 : (respBaseStr ++ xDataStr ++ b64Encode pk ++ respTailStr).drop 80
      = (xDataStr ++ b64Encode pk) ++ respTailStr := by
    rw [show respBaseStr ++ xDataStr ++ b64Encode pk ++ respTailStr
      = respBaseStr ++ ((xDataStr ++ b64Encode pk) ++ respTailStr) by
        simp [List.append_assoc]]
    exact List.drop_left' hbl
  -- CRLF after the marker is first found right after the payload
  have hf3 : findSub crlfStr ((xDataStr ++ b64Encode pk) ++ respTailStr)
      = some (8 + (b64Encode pk).length) := by
    have h := findSub_append_skip crlfStr (xDataStr ++ b64Encode pk)
      respTailStr ?hno (by decide)
    · simpa [List.length_append, hxl] using h
    case hno =>
      intro i hi
      apply not_isPrefixOf_of_ne_at _ _ 0 (Char.ofNat 13) (by decide)
      rw [List.getElem?_drop]
      rw [List.getElem?_append_left (show i + 0
        < (xDataStr ++ b64Encode pk).length by omega)]
      exact getElem?_append_ne _ _ _ hxd_cr henc_cr _
  have hdrop88 : (respBaseStr ++ xDataStr ++ b64Encode pk ++ respTailStr).drop 88
      = b64Encode pk ++ respTailStr := by
    rw [show respBaseStr ++ xDataStr ++ b64Encode pk ++ respTailStr
      = (respBaseStr ++ xDataStr) ++ (b64Encode pk ++ respTailStr) by
        simp [List.append_assoc]]
    exact List.drop_left' hhl
  rw [hresp]
  unfold HttpMimic.decapsulate
  rw [hG]
  dsimp only
  rw [hX]
  dsimp only
  rw [hdrop80, hf3]
  dsimp only
  rw [show (80 : Nat) + 8 = 88 from rfl,
    show 8 + (b64Encode pk).length - 8 = (b64Encode pk).length by omega,
    hdrop88, List.take_left, b64_roundtrip pk hb]
  rfl

/-- The `X-Data` fallback of `decapsulate` yields `Ok(None)` when the
marker is absent or no CRLF follows its first occurrence. -/
theorem decapsulate_xdata_none (packet : List Char)
    (hxd : match findSub xDataStr packet with
      | some s => findSub crlfStr (packet.drop s) = none
      | none => True) :
    (match findSub xDataStr packet with
     | some s2 =>
       match findSub crlfStr (packet.drop s2) with
       | some e2 => (b64Decode ((packet.drop (s2 + 8)).take (e2 - 8))).map some
       | none => some none
     | none => some none) = some none := by
  match h2 : findSub xDataStr packet with
  | some s2 =>
    rw [h2] at hxd
    dsimp only at hxd
    dsimp only
    rw [hxd]
  | none =>
    rfl

/-- C7: for every 32-byte payload `pk`, decapsulating the client-side
encapsulation and the server-side encapsulation both return exactly
`Some pk`; and every packet that contains neither the substring
`GET /api/v1/resource/` followed (from its first occurrence) by
` HTTP/1.1`, nor the substring `X-Data: ` followed by CRLF, yields
`None`. -/
theorem http_mimic_roundtrip (pk : List Nat) (packet : List Char)
    (hlen : pk.length = 32) (hb : ∀ b ∈ pk, b < 256)
    (hget : match findSub reqMarkerStr packet with
      | some s => findSub httpVersionStr (packet.drop s) = none
      | none => True)
    (hxd : match findSub xDataStr packet with
      | some s => findSub crlfStr (packet.drop s) = none
      | none => True) :
    HttpMimic.decapsulate (HttpMimic.encapsulate pk false) = some (some pk) ∧
      HttpMimic.decapsulate (HttpMimic.encapsulate pk true) = some (some pk) ∧
      HttpMimic.decapsulate packet = some none := by
  refine ⟨decap_encap_request pk hb, decap_encap_response pk hb, ?_⟩
  unfold HttpMimic.decapsulate
  match h1 : findSub reqMarkerStr packet with
  | some s =>
    rw [h1] at hget
    dsimp only at hget
    dsimp only
    rw [hget]
    dsimp only
    exact decapsulate_xdata_none packet hxd
  | none =>
    dsimp only
    exact decapsulate_xdata_none packet hxd

/-- Witness for `http_mimic_roundtrip`: the all-zero 32-byte key and the
unrecognizable packet `"hello there"`. -/
theorem http_mimic_roundtrip_witness :
    HttpMimic.decapsulate (HttpMimic.encapsulate (List.replicate 32 0) false)
        = some (some (List.replicate 32 0)) ∧
      HttpMimic.decapsulate (HttpMimic.encapsulate (List.replicate 32 0) true)
        = some (some (List.replicate 32 0)) ∧
      HttpMimic.decapsulate ("hello there".toList) = some none :=
  http_mimic_roundtrip (List.replicate 32 0) ("hello there".toList)
    (by decide) (by decide)
    (by rw [show findSub reqMarkerStr ("hello there".toList) = none from by decide]
        exact True.intro)
    (by rw [show findSub xDataStr ("hello there".toList) = none from by decide]
        exact True.intro)
